import Mathlib

/-!
Verification of the AArch64 DIT instrumentation pass
(`llvm/lib/Target/AArch64/AArch64DIT.cpp`).

The pass walks a machine function's basic blocks. In each block it scans the
instruction stream, recording
  * every transition out of a `FrameSetup` (prologue) run — the first
    non-prologue instruction becomes a "set" target, and
  * the first `FrameDestroy` (epilogue) instruction — it becomes the single
    "unset" target.
For the function's first block, if no set target was found, the block's first
instruction is forced to be a set target.  Before every set target the pass
inserts the four-instruction DIT-enable sequence (MRS/MSR/DSB/ISB); before the
unset target it inserts the one-instruction DIT-restore (MSR from X14).

We embed machine instructions shallowly: only the fields the pass reads or
writes are modelled (opcode with operands, the two frame flags, and the debug
location that inserted instructions inherit).  Fallible behaviour — the pass
dereferences `MBB.begin()` of the first block when forcing a set target, which
is invalid on an empty block — is modelled by `Option`.
-/

set_option autoImplicit false

namespace DITPass

/-- Opcode together with its operands, as built by the `BuildMI` calls of the
pass; original instructions of the input program are `other` with an arbitrary
tag. -/
inductive Op where
  | MRS (reg : Nat) (sysreg : Nat)
  | MSRimm (sysreg : Nat) (imm : Nat)
  | DSB (imm : Nat)
  | ISB (imm : Nat)
  | MSRreg (sysreg : Nat) (reg : Nat)
  | other (tag : Nat)
deriving DecidableEq, Repr

/-- A machine instruction: opcode/operands, the two frame flags the pass
queries (`MachineInstr::MIFlag::FrameSetup` / `FrameDestroy`), and a debug
location tag. -/
structure MachineInstr where
  op : Op
  frameSetup : Bool
  frameDestroy : Bool
  debugLoc : Nat
deriving DecidableEq, Repr

instance : Inhabited MachineInstr := ⟨⟨.other 0, false, false, 0⟩⟩

/-- The scratch register `AArch64::X14` used by the pass. -/
def X14 : Nat := 14

/-- The system-register operand `AArch64SysReg::DIT`. -/
def DITsysreg : Nat := 0xda15

/-- The DIT-enable sequence emitted by `insertBlockStartDITSet`, in emission
order: read the DIT bit into X14, set the DIT bit, data barrier, instruction
barrier.  `BuildMI` attaches the debug location of the instruction being
inserted before, and sets no frame flags. -/
def ditSetSeq (dl : Nat) : List MachineInstr :=
  [⟨.MRS X14 DITsysreg, false, false, dl⟩,
   ⟨.MSRimm DITsysreg 1, false, false, dl⟩,
   ⟨.DSB 0xf, false, false, dl⟩,
   ⟨.ISB 0xf, false, false, dl⟩]

/-- The DIT-restore sequence emitted by `insertBlockEndDITUnset`: write X14
back into the DIT bit. -/
def ditUnsetSeq (dl : Nat) : List MachineInstr :=
  [⟨.MSRreg DITsysreg X14, false, false, dl⟩]

/-- The scanning loop of `processMachineBasicBlock`, instruction by
instruction.  `inFS` is the `inFrameSetup` flag, `i` the index of the current
instruction, `setT`/`unsetT` the accumulated target indices, `bc` the
`blockChanged` flag.  Targets are recorded as indices into the original
instruction list (the C++ records pointers to the instructions, which insertion
never invalidates). -/
def scanGo : List MachineInstr → Bool → Nat → List Nat → List Nat → Bool →
    List Nat × List Nat × Bool
  | [], _, _, setT, unsetT, bc => (setT, unsetT, bc)
  | mi :: rest, inFS, i, setT, unsetT, bc =>
    let curFS := mi.frameSetup
    let setT1 := if !curFS && inFS then setT ++ [i] else setT
    let bc1 := if !curFS && inFS then true else bc
    let unsetT1 := if unsetT.isEmpty && mi.frameDestroy then unsetT ++ [i] else unsetT
    let bc2 := if unsetT.isEmpty && mi.frameDestroy then true else bc1
    scanGo rest curFS (i + 1) setT1 unsetT1 bc2

/-- Scan of one whole block: `inFrameSetup` starts false, accumulators empty. -/
def scanBlock (l : List MachineInstr) : List Nat × List Nat × Bool :=
  scanGo l false 0 [] [] false

/-- The insertion phase: before the instruction at each index in `setT` the
enable sequence is spliced, before the one at each index in `unsetT` the
restore sequence.  All set-target insertions happen before all unset-target
insertions (two separate loops in the C++), and each `BuildMI` inserts
immediately before the target instruction, so at an index that is both a set
and an unset target the enable sequence ends up before the restore sequence.
The list is rebuilt position by position; `i` is the index of the head of the
remaining instructions `xs` within the original block. -/
def instrumentGo (setT unsetT : List Nat) : Nat → List MachineInstr → List MachineInstr
  | _, [] => []
  | i, mi :: rest =>
    (if i ∈ setT then ditSetSeq mi.debugLoc else []) ++
    (if i ∈ unsetT then ditUnsetSeq mi.debugLoc else []) ++
    mi :: instrumentGo setT unsetT (i + 1) rest

/-- Instrumentation of a whole block. -/
def instrument (l : List MachineInstr) (setT unsetT : List Nat) : List MachineInstr :=
  instrumentGo setT unsetT 0 l

/-- The `errs() << *MI` prints of `processMachineBasicBlock`: each set target,
then each unset target (the original instructions, printed before the splice
in front of them). -/
def targetsDump (l : List MachineInstr) (setT unsetT : List Nat) : List MachineInstr :=
  (setT ++ unsetT).filterMap fun i => l[i]?

/-- `AArch64DIT::processMachineBasicBlock`: scan, force a set target at the
first instruction of the function's first block when none was found, then
instrument.  Returns the rewritten block, the `blockChanged` flag, and the
trace printed to `errs()`; `none` models the invalid dereference of
`MBB.begin()` on an empty first block. -/
def processMachineBasicBlock (mbb : List MachineInstr) (isFirstBlock : Bool) :
    Option (List MachineInstr × Bool × List MachineInstr) :=
  let s := scanBlock mbb
  if isFirstBlock && s.1.isEmpty then
    match mbb with
    | [] => none
    | _ :: _ => some (instrument mbb [0] s.2.1, s.2.2, targetsDump mbb [0] s.2.1)
  else
    some (instrument mbb s.1 s.2.1, s.2.2, targetsDump mbb s.1 s.2.1)

/-- A machine function: the `dit_protected` attribute bit and the basic blocks
in layout order. -/
structure MachineFunction where
  ditProtected : Bool
  blocks : List (List MachineInstr)
deriving DecidableEq, Repr

/-- The block loop of `runOnMachineFunction`: process each block, the first
with `isFirstBlock` set; `changed` is the disjunction of the per-block flags,
and the per-block traces are concatenated in order. -/
def processBlocks : List (List MachineInstr) → Bool →
    Option (List (List MachineInstr) × Bool × List MachineInstr)
  | [], _ => some ([], false, [])
  | mbb :: rest, isFirst =>
    match processMachineBasicBlock mbb isFirst with
    | none => none
    | some (out, bc, tr) =>
      match processBlocks rest false with
      | none => none
      | some (outs, ch, trs) => some (out :: outs, bc || ch, tr ++ trs)

/-- `AArch64DIT::runOnMachineFunction`: bail out unchanged on functions
without the DIT-protected attribute; otherwise process all blocks and finally
dump every instruction of the (mutated) function to `errs()`.  The returned
triple is the mutated function, the `changed` result, and the full `errs()`
trace. -/
def runOnMachineFunction (MF : MachineFunction) :
    Option (MachineFunction × Bool × List MachineInstr) :=
  if !MF.ditProtected then some (MF, false, [])
  else
    match processBlocks MF.blocks true with
    | none => none
    | some (outs, ch, tr) => some (⟨MF.ditProtected, outs⟩, ch, tr ++ outs.flatten)

/-! ### Declarative description of the insertion points

These definitions restate, in positional terms, where the spec says the two
sequences go; the refinement lemmas below prove the pass's scan-then-instrument
computation equal to them. -/

/-- Position `i` is a prologue-exit transition: `i ≥ 1`, instruction `i - 1`
is prologue-flagged and instruction `i` is not. -/
def transitionAt (l : List MachineInstr) (i : Nat) : Bool :=
  match i with
  | 0 => false
  | j + 1 =>
    match l[j]?, l[j + 1]? with
    | some a, some b => a.frameSetup && !b.frameSetup
    | _, _ => false

/-- The block has at least one prologue-exit transition. -/
def hasTransition (l : List MachineInstr) : Bool :=
  (List.range l.length).any (transitionAt l)

/-- Position `i` receives an enable sequence iff it is a prologue-exit
transition, or it is position 0 of the function's first block and the block
has no transition at all (the forced fallback). -/
def specSetPoint (l : List MachineInstr) (first : Bool) (i : Nat) : Bool :=
  transitionAt l i || (first && !hasTransition l && i == 0)

/-- Index of the first epilogue-flagged instruction of the block, if any. -/
def firstDestroyIdx (l : List MachineInstr) : Option Nat :=
  l.findIdx? (·.frameDestroy)

/-- Position `i` receives the restore sequence iff it holds the FIRST
epilogue-flagged instruction of the block. -/
def specRestorePoint (l : List MachineInstr) (i : Nat) : Bool :=
  firstDestroyIdx l == some i

/-- Declarative rebuild of the block: before the instruction at each
`specSetPoint` the enable sequence, before the one at the `specRestorePoint`
the restore sequence.  `i` is the position of the head of `xs` within `l`. -/
def specSplice (l : List MachineInstr) (first : Bool) : Nat → List MachineInstr → List MachineInstr
  | _, [] => []
  | i, mi :: rest =>
    (if specSetPoint l first i then ditSetSeq mi.debugLoc else []) ++
    (if specRestorePoint l i then ditUnsetSeq mi.debugLoc else []) ++
    mi :: specSplice l first (i + 1) rest

/-- Declarative form of the instrumented block. -/
def specInstrumentBlock (l : List MachineInstr) (first : Bool) : List MachineInstr :=
  specSplice l first 0 l

/-- The part of the instrumented block coming from the instructions strictly
before position `i`. -/
def specPrefix (l : List MachineInstr) (first : Bool) (i : Nat) : List MachineInstr :=
  specSplice l first 0 (l.take i)

/-- The part of the instrumented block coming from the instructions strictly
after position `i`. -/
def specSuffix (l : List MachineInstr) (first : Bool) (i : Nat) : List MachineInstr :=
  specSplice l first (i + 1) (l.drop (i + 1))

/-- Variant of `specSplice` that never inserts an enable sequence; used to
state that blocks without a prologue-exit (outside the entry block) receive
only restore sequences. -/
def spliceRestoreOnly (l : List MachineInstr) : Nat → List MachineInstr → List MachineInstr
  | _, [] => []
  | i, mi :: rest =>
    (if specRestorePoint l i then ditUnsetSeq mi.debugLoc else []) ++
    mi :: spliceRestoreOnly l (i + 1) rest

/-- Variant of `specSplice` that never inserts a restore sequence; used to
state that blocks without any epilogue-flagged instruction receive only enable
sequences. -/
def spliceSetOnly (l : List MachineInstr) (first : Bool) : Nat → List MachineInstr → List MachineInstr
  | _, [] => []
  | i, mi :: rest =>
    (if specSetPoint l first i then ditSetSeq mi.debugLoc else []) ++
    mi :: spliceSetOnly l first (i + 1) rest

/-- Generalized transition test: position `k` of `l` is non-prologue while
the previous position is prologue, where the flag state before position 0 is
`prev`. -/
def transAtG (prev : Bool) (l : List MachineInstr) (k : Nat) : Bool :=
  match l[k]?, k with
  | none, _ => false
  | some b, 0 => !b.frameSetup && prev
  | some b, k' + 1 =>
    match l[k']? with
    | some a => !b.frameSetup && a.frameSetup
    | none => false

/-- The set targets, declaratively: all positions satisfying `specSetPoint`. -/
def specSetTargets (l : List MachineInstr) (first : Bool) : List Nat :=
  (List.range l.length).filter (fun i => specSetPoint l first i)

/-- Declarative form of the per-block `errs()` trace: the set-target
instructions in position order, then the (at most one) unset-target
instruction. -/
def specTargetDump (l : List MachineInstr) (first : Bool) : List MachineInstr :=
  (specSetTargets l first).filterMap (fun i => l[i]?) ++
    (firstDestroyIdx l).toList.filterMap (fun i => l[i]?)

/-- Declarative form of the whole-function target trace: per-block target
dumps in layout order, only the first block with the forced-fallback rule. -/
def specBlocksDump : List (List MachineInstr) → Bool → List MachineInstr
  | [], _ => []
  | l :: rest, first => specTargetDump l first ++ specBlocksDump rest false

/-- An instruction is a prologue or epilogue marker. -/
def isMarker (mi : MachineInstr) : Bool :=
  mi.frameSetup || mi.frameDestroy

/-- An instruction that writes the scratch register back into the DIT system
register (the restore instruction). -/
def isRestoreInstr (mi : MachineInstr) : Bool :=
  mi.op == Op.MSRreg DITsysreg X14

/-- An instruction that reads the DIT system register into the scratch
register (the first instruction of the enable sequence). -/
def isEnableStart (mi : MachineInstr) : Bool :=
  mi.op == Op.MRS X14 DITsysreg

/-- Number of restore instructions in a whole function. -/
def countRestoreInstrs (MF : MachineFunction) : Nat :=
  (MF.blocks.flatten.filter isRestoreInstr).length

/-- Number of enable sequences (counted by their leading MRS) in a whole
function. -/
def countEnableStarts (MF : MachineFunction) : Nat :=
  (MF.blocks.flatten.filter isEnableStart).length

/-! ### Concrete machine functions used as witnesses and counterexamples -/

def pA : MachineInstr := ⟨.other 1, true, false, 10⟩

def pB : MachineInstr := ⟨.other 2, true, false, 11⟩

def b1 : MachineInstr := ⟨.other 3, false, false, 12⟩

def b2 : MachineInstr := ⟨.other 4, false, false, 13⟩

def eA : MachineInstr := ⟨.other 5, false, true, 14⟩

def eB : MachineInstr := ⟨.other 6, false, true, 15⟩

/-- Protected, entry block `[prologue, prologue, body, body]`. -/
def exA : MachineFunction := ⟨true, [[pA, pB, b1, b2]]⟩

/-- Protected, entry block `[body, epilogue, epilogue]`. -/
def exB : MachineFunction := ⟨true, [[b1, eA, eB]]⟩

/-- Protected, entry block `[body]` and a second block `[body, epilogue]`. -/
def exC : MachineFunction := ⟨true, [[b1], [b2, eA]]⟩

/-- Unprotected function. -/
def exD : MachineFunction := ⟨false, [[pA, b1]]⟩

/-- C4 failing input: a protected single-block function with no frame-flagged
instruction at all. -/
def exBug : MachineFunction := ⟨true, [[⟨.other 40, false, false, 7⟩]]⟩

/-- C6 counterexample input: a protected function consisting of one
straight-line block with a single ordinary instruction and no epilogue. -/
def cexUnmatched : MachineFunction := ⟨true, [[⟨.other 60, false, false, 0⟩]]⟩

/-- C8 counterexample input: a protected single-block function whose only
instruction is epilogue-flagged. -/
def cexTrace : MachineFunction := ⟨true, [[⟨.other 80, false, true, 5⟩]]⟩

/-- The pass output on `exA`. -/
def exAOut : MachineFunction := ⟨true, [[pA, pB] ++ ditSetSeq 12 ++ [b1, b2]]⟩

/-- The trace of the pass on `exA`. -/
def exATr : List MachineInstr := b1 :: ([pA, pB] ++ ditSetSeq 12 ++ [b1, b2])

/-- The pass output on `exB`. -/
def exBOut : MachineFunction := ⟨true, [ditSetSeq 12 ++ b1 :: ditUnsetSeq 14 ++ [eA, eB]]⟩

/-- The trace of the pass on `exB`. -/
def exBTr : List MachineInstr := [b1, eA] ++ (ditSetSeq 12 ++ b1 :: ditUnsetSeq 14 ++ [eA, eB])

/-- The pass output on `exC`. -/
def exCOut : MachineFunction := ⟨true, [ditSetSeq 12 ++ [b1], b2 :: ditUnsetSeq 14 ++ [eA]]⟩

/-- The trace of the pass on `exC`. -/
def exCTr : List MachineInstr :=
  [b1, eA] ++ ((ditSetSeq 12 ++ [b1]) ++ (b2 :: ditUnsetSeq 14 ++ [eA]))

/-! ### Characterization of the scanning loop -/

/-- Pure form of the set-target accumulation of `scanGo`: the indices at which
the `inFrameSetup` flag falls, given that it starts as `prev` and the head of
the list sits at index `i`. -/
def transitionsFrom (prev : Bool) (i : Nat) : List MachineInstr → List Nat
  | [] => []
  | mi :: rest =>
    (if !mi.frameSetup && prev then [i] else []) ++ transitionsFrom mi.frameSetup (i + 1) rest

/-- Pure form of the unset-target accumulation of `scanGo`: the index of the
first epilogue-flagged instruction, as a list of at most one element. -/
def firstDestroyFrom (i : Nat) : List MachineInstr → List Nat
  | [] => []
  | mi :: rest => if mi.frameDestroy then [i] else firstDestroyFrom (i + 1) rest

theorem scanGo_setT (l : List MachineInstr) :
    ∀ (inFS : Bool) (i : Nat) (setT unsetT : List Nat) (bc : Bool),
      (scanGo l inFS i setT unsetT bc).1 = setT ++ transitionsFrom inFS i l := by
  induction l with
  | nil => intro inFS i setT unsetT bc; simp [scanGo, transitionsFrom]
  | cons mi rest ih =>
    intro inFS i setT unsetT bc
    simp only [scanGo, transitionsFrom, ih]
    by_cases h1 : (!mi.frameSetup && inFS) <;>
      by_cases h2 : (unsetT.isEmpty && mi.frameDestroy) <;> simp [h1, h2]

theorem scanGo_unsetT (l : List MachineInstr) :
    ∀ (inFS : Bool) (i : Nat) (setT unsetT : List Nat) (bc : Bool),
      (scanGo l inFS i setT unsetT bc).2.1 =
        unsetT ++ (if unsetT.isEmpty then firstDestroyFrom i l else []) := by
  induction l with
  | nil => intro inFS i setT unsetT bc; simp [scanGo, firstDestroyFrom]
  | cons mi rest ih =>
    intro inFS i setT unsetT bc
    simp only [scanGo, firstDestroyFrom, ih]
    by_cases h2 : unsetT.isEmpty <;> by_cases h3 : mi.frameDestroy <;> simp [h2, h3]

theorem scanGo_bc (l : List MachineInstr) :
    ∀ (inFS : Bool) (i : Nat) (setT unsetT : List Nat) (bc : Bool),
      (scanGo l inFS i setT unsetT bc).2.2 =
        (bc || !(transitionsFrom inFS i l).isEmpty ||
          (unsetT.isEmpty && !(firstDestroyFrom i l).isEmpty)) := by
  induction l with
  | nil => intro inFS i setT unsetT bc; simp [scanGo, transitionsFrom, firstDestroyFrom]
  | cons mi rest ih =>
    intro inFS i setT unsetT bc
    simp only [scanGo, transitionsFrom, firstDestroyFrom, ih]
    by_cases h1 : (!mi.frameSetup && inFS) <;> by_cases h2 : unsetT.isEmpty <;>
      by_cases h3 : mi.frameDestroy <;>
        simp [h1, h2, h3, Bool.or_comm, Bool.or_assoc, Bool.or_left_comm]

theorem scanBlock_setT (l : List MachineInstr) :
    (scanBlock l).1 = transitionsFrom false 0 l := by
  simp [scanBlock, scanGo_setT]

theorem scanBlock_unsetT (l : List MachineInstr) :
    (scanBlock l).2.1 = firstDestroyFrom 0 l := by
  simp [scanBlock, scanGo_unsetT]

theorem scanBlock_bc (l : List MachineInstr) :
    (scanBlock l).2.2 =
      (!(transitionsFrom false 0 l).isEmpty || !(firstDestroyFrom 0 l).isEmpty) := by
  simp [scanBlock, scanGo_bc]

theorem transAtG_cons_zero (prev : Bool) (mi : MachineInstr) (rest : List MachineInstr) :
    transAtG prev (mi :: rest) 0 = (!mi.frameSetup && prev) := by
  simp [transAtG]

theorem transAtG_cons_succ (prev : Bool) (mi : MachineInstr) (rest : List MachineInstr)
    (k : Nat) : transAtG prev (mi :: rest) (k + 1) = transAtG mi.frameSetup rest k := by
  cases k with
  | zero => cases h : rest[0]? <;> simp [transAtG, h]
  | succ k' =>
    cases h : rest[k' + 1]? <;> cases h' : rest[k']? <;> simp [transAtG, h, h']

theorem transAtG_false (l : List MachineInstr) (k : Nat) :
    transAtG false l k = transitionAt l k := by
  cases k with
  | zero => cases h : l[0]? <;> simp [transAtG, transitionAt, h]
  | succ j =>
    cases h : l[j + 1]? <;> cases h' : l[j]? <;>
      simp [transAtG, transitionAt, h, h', Bool.and_comm]

theorem transAtG_lt {prev : Bool} {l : List MachineInstr} {k : Nat}
    (h : transAtG prev l k = true) : k < l.length := by
  by_contra hk
  have : l[k]? = none := List.getElem?_eq_none (by omega)
  unfold transAtG at h
  rw [this] at h
  exact Bool.false_ne_true h

theorem mem_transitionsFrom (l : List MachineInstr) :
    ∀ (prev : Bool) (i j : Nat),
      j ∈ transitionsFrom prev i l ↔ ∃ k, j = i + k ∧ transAtG prev l k = true := by
  induction l with
  | nil =>
    intro prev i j
    simp only [transitionsFrom, List.not_mem_nil, false_iff, not_exists, not_and]
    intro k _
    simp [transAtG]
  | cons mi rest ih =>
    intro prev i j
    simp only [transitionsFrom, List.mem_append]
    constructor
    · intro h
      rcases h with h | h
      · by_cases hc : (!mi.frameSetup && prev) = true
        · rw [if_pos hc] at h
          simp only [List.mem_singleton] at h
          exact ⟨0, by omega, by rw [transAtG_cons_zero]; exact hc⟩
        · rw [if_neg hc] at h
          simp at h
      · rcases (ih mi.frameSetup (i + 1) j).mp h with ⟨k, hk, hg⟩
        exact ⟨k + 1, by omega, by rw [transAtG_cons_succ]; exact hg⟩
    · rintro ⟨k, rfl, hg⟩
      cases k with
      | zero =>
        left
        rw [transAtG_cons_zero] at hg
        simp [hg]
      | succ k' =>
        right
        rw [transAtG_cons_succ] at hg
        exact (ih mi.frameSetup (i + 1) (i + (k' + 1))).mpr ⟨k', by omega, hg⟩

theorem mem_transitionsFrom_zero (l : List MachineInstr) (j : Nat) :
    j ∈ transitionsFrom false 0 l ↔ transitionAt l j = true := by
  rw [mem_transitionsFrom]
  constructor
  · rintro ⟨k, rfl, hg⟩
    rw [transAtG_false] at hg
    simpa using hg
  · intro h
    exact ⟨j, by omega, by rw [transAtG_false]; exact h⟩

theorem transitionAt_lt {l : List MachineInstr} {i : Nat}
    (h : transitionAt l i = true) : i < l.length := by
  rw [← transAtG_false] at h
  exact transAtG_lt h

theorem transitionsFrom_eq_nil_iff (l : List MachineInstr) :
    transitionsFrom false 0 l = [] ↔ hasTransition l = false := by
  constructor
  · intro h
    rw [hasTransition]
    by_contra hne
    simp only [Bool.not_eq_false, List.any_eq_true] at hne
    rcases hne with ⟨j, _, hj⟩
    have : j ∈ transitionsFrom false 0 l := (mem_transitionsFrom_zero l j).mpr hj
    rw [h] at this
    exact List.not_mem_nil _ this
  · intro h
    rw [List.eq_nil_iff_forall_not_mem]
    intro j hj
    have hj' := (mem_transitionsFrom_zero l j).mp hj
    have hlt := transitionAt_lt hj'
    have : hasTransition l = true := by
      rw [hasTransition]
      exact List.any_eq_true.mpr ⟨j, List.mem_range.mpr hlt, hj'⟩
    rw [h] at this
    exact Bool.false_ne_true this

theorem firstDestroyFrom_eq (l : List MachineInstr) :
    ∀ i : Nat,
      firstDestroyFrom i l =
        match l.findIdx? (·.frameDestroy) with
        | none => []
        | some k => [i + k] := by
  induction l with
  | nil => intro i; simp [firstDestroyFrom]
  | cons mi rest ih =>
    intro i
    by_cases h : mi.frameDestroy
    · simp [firstDestroyFrom, h]
    · rw [firstDestroyFrom, if_neg (by simp [h]), ih (i + 1), List.findIdx?_cons,
        if_neg (by simp [h])]
      have hsucc : rest.findIdx? (fun x => x.frameDestroy) 1 =
          (rest.findIdx? (fun x => x.frameDestroy)).map (fun k => k + 1) :=
        List.findIdx?_succ
      rw [hsucc]
      cases hf : rest.findIdx? (fun x => x.frameDestroy) with
      | none => simp
      | some k =>
        simp only [Option.map_some', List.cons.injEq, and_true]
        omega

theorem mem_firstDestroyFrom_zero (l : List MachineInstr) (j : Nat) :
    j ∈ firstDestroyFrom 0 l ↔ specRestorePoint l j = true := by
  rw [firstDestroyFrom_eq, specRestorePoint, firstDestroyIdx]
  cases hf : l.findIdx? (·.frameDestroy) with
  | none => simp
  | some k =>
    simp only [Nat.zero_add, List.mem_singleton, beq_iff_eq, Option.some.injEq]
    exact eq_comm

theorem firstDestroyFrom_eq_nil_iff (l : List MachineInstr) :
    firstDestroyFrom 0 l = [] ↔ l.all (fun mi => !mi.frameDestroy) = true := by
  rw [firstDestroyFrom_eq]
  cases hf : l.findIdx? (·.frameDestroy) with
  | none =>
    simp only [true_iff]
    rw [List.findIdx?_eq_none_iff] at hf
    simp only [List.all_eq_true]
    intro x hx
    simp [hf x hx]
  | some k =>
    simp only [List.cons_ne_nil, false_iff]
    intro hall
    have : l.findIdx? (·.frameDestroy) = none := by
      rw [List.findIdx?_eq_none_iff]
      intro x hx
      simp only [List.all_eq_true] at hall
      simpa using hall x hx
    rw [hf] at this
    exact Option.noConfusion this

theorem firstDestroyFrom_zero (l : List MachineInstr) :
    firstDestroyFrom 0 l = (firstDestroyIdx l).toList := by
  rw [firstDestroyFrom_eq, firstDestroyIdx]
  cases hf : l.findIdx? (·.frameDestroy) <;> simp

theorem hasTransition_false_all {l : List MachineInstr} (h : hasTransition l = false) :
    ∀ j, transitionAt l j = false := by
  intro j
  by_contra hj
  simp only [Bool.not_eq_false] at hj
  have hlt := transitionAt_lt hj
  have : hasTransition l = true :=
    List.any_eq_true.mpr ⟨j, List.mem_range.mpr hlt, hj⟩
  rw [h] at this
  exact Bool.false_ne_true this

theorem transitionsFrom_isEmpty (l : List MachineInstr) :
    (transitionsFrom false 0 l).isEmpty = !hasTransition l := by
  cases h : hasTransition l with
  | false =>
    rw [(transitionsFrom_eq_nil_iff l).mpr h]
    rfl
  | true =>
    have hne : transitionsFrom false 0 l ≠ [] := by
      intro hnil
      have := (transitionsFrom_eq_nil_iff l).mp hnil
      rw [h] at this
      simp at this
    cases hl : transitionsFrom false 0 l with
    | nil => exact absurd hl hne
    | cons a as => rfl

theorem firstDestroyFrom_isEmpty (l : List MachineInstr) :
    (firstDestroyFrom 0 l).isEmpty = !(l.any (·.frameDestroy)) := by
  have hs : (l.findIdx? (·.frameDestroy)).isSome = l.any (·.frameDestroy) :=
    List.findIdx?_isSome
  rw [firstDestroyFrom_eq]
  cases hf : l.findIdx? (·.frameDestroy) with
  | none => rw [hf] at hs; simp_all
  | some k => rw [hf] at hs; simp_all

theorem transitionsFrom_eq_filter_aux (l : List MachineInstr) :
    ∀ (prev : Bool) (i : Nat),
      transitionsFrom prev i l =
        ((List.range l.length).filter (fun k => transAtG prev l k)).map (fun k => i + k) := by
  induction l with
  | nil => intro prev i; simp [transitionsFrom]
  | cons mi rest ih =>
    intro prev i
    rw [transitionsFrom, List.length_cons, List.range_succ_eq_map, List.filter_cons]
    have hshift : ∀ k : Nat,
        transAtG prev (mi :: rest) (Nat.succ k) = transAtG mi.frameSetup rest k := by
      intro k
      exact transAtG_cons_succ prev mi rest k
    rw [List.filter_map]
    have hfe : (List.range rest.length).filter ((fun k => transAtG prev (mi :: rest) k) ∘ Nat.succ) =
        (List.range rest.length).filter (fun k => transAtG mi.frameSetup rest k) := by
      apply List.filter_congr
      intro k _
      simp [Function.comp, hshift k]
    rw [hfe, ih mi.frameSetup (i + 1), transAtG_cons_zero]
    by_cases hc : (!mi.frameSetup && prev) = true
    · rw [if_pos hc, if_pos hc]
      simp only [List.map_cons, Nat.add_zero, List.map_map, List.cons_append,
        List.nil_append, List.singleton_append]
      congr 1
      apply List.map_congr_left
      intro k _
      simp only [Function.comp_apply]
      omega
    · rw [if_neg hc, if_neg hc]
      simp only [List.nil_append, List.map_map]
      apply List.map_congr_left
      intro k _
      simp only [Function.comp_apply]
      omega

theorem transitionsFrom_zero_eq_filter (l : List MachineInstr) :
    transitionsFrom false 0 l = (List.range l.length).filter (fun i => transitionAt l i) := by
  rw [transitionsFrom_eq_filter_aux l false 0]
  have : (List.range l.length).filter (fun k => transAtG false l k) =
      (List.range l.length).filter (fun i => transitionAt l i) := by
    apply List.filter_congr
    intro k _
    simp [transAtG_false]
  rw [this]
  apply List.map_id''
  intro k
  omega

theorem instrumentGo_eq_specSplice (l : List MachineInstr) (first : Bool)
    (setT unsetT : List Nat)
    (hset : ∀ j, j ∈ setT ↔ specSetPoint l first j = true)
    (hunset : ∀ j, j ∈ unsetT ↔ specRestorePoint l j = true) :
    ∀ (xs : List MachineInstr) (i : Nat),
      instrumentGo setT unsetT i xs = specSplice l first i xs := by
  intro xs
  induction xs with
  | nil => intro i; rfl
  | cons mi rest ih =>
    intro i
    rw [instrumentGo, specSplice, ih (i + 1),
      if_congr (hset i) rfl rfl, if_congr (hunset i) rfl rfl]

theorem specSetPoint_forced (l : List MachineInstr) (h : hasTransition l = false) (j : Nat) :
    specSetPoint l true j = (j == 0) := by
  rw [specSetPoint, hasTransition_false_all h j, h]
  simp

theorem specSetPoint_not_forced (l : List MachineInstr) (first : Bool)
    (h : first = true → hasTransition l = true) (j : Nat) :
    specSetPoint l first j = transitionAt l j := by
  cases first with
  | false => simp [specSetPoint]
  | true => simp [specSetPoint, h rfl]

theorem specSetTargets_forced (l : List MachineInstr) (hne : l ≠ [])
    (h : hasTransition l = false) : specSetTargets l true = [0] := by
  rw [specSetTargets]
  have hcong : (List.range l.length).filter (fun i => specSetPoint l true i) =
      (List.range l.length).filter (fun i => i == 0) := by
    apply List.filter_congr
    intro k _
    rw [specSetPoint_forced l h k]
  rw [hcong]
  cases l with
  | nil => exact absurd rfl hne
  | cons mi rest =>
    rw [List.length_cons, List.range_succ_eq_map, List.filter_cons]
    simp only [beq_self_eq_true, if_pos, List.filter_map]
    have : (List.range rest.length).filter ((fun i => i == 0) ∘ Nat.succ) = [] := by
      apply List.filter_eq_nil_iff.mpr
      intro k _
      simp [Function.comp]
    rw [this]
    rfl

theorem specSetTargets_not_forced (l : List MachineInstr) (first : Bool)
    (h : first = true → hasTransition l = true) :
    specSetTargets l first = transitionsFrom false 0 l := by
  rw [specSetTargets, transitionsFrom_zero_eq_filter]
  apply List.filter_congr
  intro k _
  rw [specSetPoint_not_forced l first h k]

/-- Full characterization of `processMachineBasicBlock` on the non-crashing
path: the rewritten block is the declaratively specified splice, the
`blockChanged` flag records exactly whether the scan found a prologue-exit or
an epilogue instruction (NOT whether the forced first-block insertion
happened), and the trace lists the targets. -/
theorem processMachineBasicBlock_spec (l : List MachineInstr) (first : Bool)
    (out : List MachineInstr) (bc : Bool) (tr : List MachineInstr)
    (h : processMachineBasicBlock l first = some (out, bc, tr)) :
    out = specInstrumentBlock l first ∧
    bc = (hasTransition l || l.any (·.frameDestroy)) ∧
    tr = specTargetDump l first := by
  simp only [processMachineBasicBlock] at h
  have hunset : ∀ j, j ∈ (scanBlock l).2.1 ↔ specRestorePoint l j = true := by
    intro j
    rw [scanBlock_unsetT]
    exact mem_firstDestroyFrom_zero l j
  by_cases hc : (first && (scanBlock l).1.isEmpty) = true
  · have hfirst : first = true := (Bool.and_eq_true_iff.mp hc).1
    have hempty : (scanBlock l).1.isEmpty = true := (Bool.and_eq_true_iff.mp hc).2
    rw [scanBlock_setT] at hempty
    have hnil : transitionsFrom false 0 l = [] := List.isEmpty_iff.mp hempty
    have hnt : hasTransition l = false := (transitionsFrom_eq_nil_iff l).mp hnil
    rw [if_pos hc] at h
    cases l with
    | nil => simp at h
    | cons mi rest =>
      simp only [Option.some.injEq, Prod.mk.injEq] at h
      obtain ⟨ho, hb, ht⟩ := h
      subst hfirst
      have hset : ∀ j, j ∈ ([0] : List Nat) ↔ specSetPoint (mi :: rest) true j = true := by
        intro j
        rw [specSetPoint_forced (mi :: rest) hnt j]
        simp
      refine ⟨?_, ?_, ?_⟩
      · rw [← ho, instrument, specInstrumentBlock]
        exact instrumentGo_eq_specSplice (mi :: rest) true [0] (scanBlock (mi :: rest)).2.1
          hset hunset (mi :: rest) 0
      · rw [← hb, scanBlock_bc, transitionsFrom_isEmpty, firstDestroyFrom_isEmpty, hnt]
        simp
      · rw [← ht, targetsDump, List.filterMap_append, specTargetDump,
          specSetTargets_forced (mi :: rest) (List.cons_ne_nil mi rest) hnt,
          scanBlock_unsetT, firstDestroyFrom_zero]
  · have hori : first = true → hasTransition l = true := by
      intro hf
      by_contra hnt
      rw [Bool.not_eq_true] at hnt
      have hnil : transitionsFrom false 0 l = [] := (transitionsFrom_eq_nil_iff l).mpr hnt
      apply hc
      rw [hf, scanBlock_setT, hnil]
      rfl
    rw [if_neg hc] at h
    simp only [Option.some.injEq, Prod.mk.injEq] at h
    obtain ⟨ho, hb, ht⟩ := h
    have hset : ∀ j, j ∈ (scanBlock l).1 ↔ specSetPoint l first j = true := by
      intro j
      rw [scanBlock_setT, mem_transitionsFrom_zero, specSetPoint_not_forced l first hori j]
    refine ⟨?_, ?_, ?_⟩
    · rw [← ho, instrument, specInstrumentBlock]
      exact instrumentGo_eq_specSplice l first (scanBlock l).1 (scanBlock l).2.1
        hset hunset l 0
    · rw [← hb, scanBlock_bc, transitionsFrom_isEmpty, firstDestroyFrom_isEmpty]
      simp
    · rw [← ht, targetsDump, List.filterMap_append, specTargetDump,
        specSetTargets_not_forced l first hori, scanBlock_setT, scanBlock_unsetT,
        firstDestroyFrom_zero]

/-- The scan-and-instrument step fails (dereferences the end iterator) exactly
on an empty first block. -/
theorem processMachineBasicBlock_eq_none_iff (l : List MachineInstr) (first : Bool) :
    processMachineBasicBlock l first = none ↔ (first = true ∧ l = []) := by
  simp only [processMachineBasicBlock]
  by_cases hc : (first && (scanBlock l).1.isEmpty) = true
  · rw [if_pos hc]
    cases l with
    | nil => simp [(Bool.and_eq_true_iff.mp hc).1]
    | cons mi rest => simp
  · rw [if_neg hc]
    simp only [reduceCtorEq, false_iff, not_and]
    intro hf hl
    apply hc
    rw [hf, hl]
    rfl

theorem processBlocks_false_ne_none (bls : List (List MachineInstr)) :
    processBlocks bls false ≠ none := by
  induction bls with
  | nil => simp [processBlocks]
  | cons l rest ih =>
    simp only [processBlocks]
    cases hp : processMachineBasicBlock l false with
    | none =>
      have := (processMachineBasicBlock_eq_none_iff l false).mp hp
      exact absurd this.1 (by simp)
    | some x =>
      obtain ⟨out, bc, tr⟩ := x
      cases hr : processBlocks rest false with
      | none => exact absurd hr ih
      | some y => obtain ⟨outs, ch, trs⟩ := y; simp

theorem processBlocks_spec (bls : List (List MachineInstr)) :
    ∀ (first : Bool) (outs : List (List MachineInstr)) (ch : Bool) (trs : List MachineInstr),
      processBlocks bls first = some (outs, ch, trs) →
      outs.length = bls.length ∧
      (∀ b : Nat, outs.getD b [] = specInstrumentBlock (bls.getD b []) (first && b == 0)) ∧
      trs = specBlocksDump bls first := by
  induction bls with
  | nil =>
    intro first outs ch trs h
    simp only [processBlocks, Option.some.injEq, Prod.mk.injEq] at h
    obtain ⟨h1, _, h3⟩ := h
    subst h1; subst h3
    exact ⟨rfl, fun b => by simp [specInstrumentBlock, specSplice, specBlocksDump], rfl⟩
  | cons l rest ih =>
    intro first outs ch trs h
    simp only [processBlocks] at h
    cases hp : processMachineBasicBlock l first with
    | none => rw [hp] at h; simp at h
    | some x =>
      obtain ⟨out, bc, tr⟩ := x
      rw [hp] at h
      cases hr : processBlocks rest false with
      | none => rw [hr] at h; simp at h
      | some y =>
        obtain ⟨outs', ch', trs'⟩ := y
        rw [hr] at h
        simp only [Option.some.injEq, Prod.mk.injEq] at h
        obtain ⟨ho, _, htr⟩ := h
        obtain ⟨o_spec, _, t_spec⟩ := processMachineBasicBlock_spec l first out bc tr hp
        obtain ⟨len', get', tr'⟩ := ih false outs' ch' trs' hr
        refine ⟨by rw [← ho]; simp [len'], ?_, by rw [← htr, t_spec, tr', specBlocksDump]⟩
        intro b
        cases b with
        | zero => rw [← ho]; simpa using o_spec
        | succ b' =>
          rw [← ho]
          have := get' b'
          simp only [Bool.false_and] at this
          simpa using this

theorem runOnMachineFunction_unprotected (MF : MachineFunction)
    (h : MF.ditProtected = false) :
    runOnMachineFunction MF = some (MF, false, []) := by
  simp [runOnMachineFunction, h]

theorem runOnMachineFunction_protected_spec (MF MF' : MachineFunction) (ch : Bool)
    (tr : List MachineInstr) (hp : MF.ditProtected = true)
    (h : runOnMachineFunction MF = some (MF', ch, tr)) :
    MF'.ditProtected = true ∧
    MF'.blocks.length = MF.blocks.length ∧
    (∀ b : Nat, MF'.blocks.getD b [] = specInstrumentBlock (MF.blocks.getD b []) (b == 0)) ∧
    tr = specBlocksDump MF.blocks true ++ MF'.blocks.flatten := by
  simp only [runOnMachineFunction, hp, Bool.not_true, Bool.false_eq_true, if_false] at h
  cases hb : processBlocks MF.blocks true with
  | none => rw [hb] at h; simp at h
  | some y =>
    obtain ⟨outs, ch', trs'⟩ := y
    rw [hb] at h
    simp only [Option.some.injEq, Prod.mk.injEq] at h
    obtain ⟨hMF', _, htr⟩ := h
    obtain ⟨len', get', tr'⟩ := processBlocks_spec MF.blocks true outs ch' trs' hb
    refine ⟨by rw [← hMF'], by rw [← hMF']; exact len', ?_, ?_⟩
    · intro b
      have := get' b
      simp only [Bool.true_and] at this
      rw [← hMF']
      exact this
    · rw [← htr, ← hMF', tr']

/-- The pass crashes (invalid dereference) exactly on a DIT-protected function
whose entry block is empty. -/
theorem runOnMachineFunction_eq_none_iff (MF : MachineFunction) :
    runOnMachineFunction MF = none ↔
      (MF.ditProtected = true ∧ MF.blocks.head? = some []) := by
  cases hd : MF.ditProtected with
  | false =>
    rw [runOnMachineFunction_unprotected MF hd]
    simp
  | true =>
    simp only [runOnMachineFunction, hd, Bool.not_true, Bool.false_eq_true, if_false]
    cases hbs : MF.blocks with
    | nil => simp [processBlocks]
    | cons l0 rest =>
      by_cases hl : l0 = []
      · subst hl
        have hp0 : processMachineBasicBlock [] true = none :=
          (processMachineBasicBlock_eq_none_iff [] true).mpr ⟨rfl, rfl⟩
        simp [processBlocks, hp0]
      · cases hp : processMachineBasicBlock l0 true with
        | none =>
          exact absurd ((processMachineBasicBlock_eq_none_iff l0 true).mp hp).2 hl
        | some x =>
          obtain ⟨out, bc, tr⟩ := x
          cases hr : processBlocks rest false with
          | none => exact absurd hr (processBlocks_false_ne_none rest)
          | some y =>
            obtain ⟨outs, ch, trs⟩ := y
            simp [processBlocks, hp, hr, hl]

/-! ### Decomposition of the instrumented block around one position -/

theorem specSplice_append (l : List MachineInstr) (first : Bool) :
    ∀ (xs ys : List MachineInstr) (i : Nat),
      specSplice l first i (xs ++ ys) =
        specSplice l first i xs ++ specSplice l first (i + xs.length) ys := by
  intro xs
  induction xs with
  | nil => intro ys i; simp [specSplice]
  | cons mi rest ih =>
    intro ys i
    rw [List.cons_append, specSplice, ih ys (i + 1), specSplice]
    have harith : i + 1 + rest.length = i + (mi :: rest).length := by
      rw [List.length_cons]; omega
    rw [harith]
    simp [List.append_assoc]

theorem specInstrumentBlock_decomp (l : List MachineInstr) (first : Bool) (i : Nat)
    (h : i < l.length) :
    specInstrumentBlock l first =
      specPrefix l first i ++
      ((if specSetPoint l first i then ditSetSeq (l.getD i default).debugLoc else []) ++
        (if specRestorePoint l i then ditUnsetSeq (l.getD i default).debugLoc else []) ++
        (l.getD i default) :: specSuffix l first i) := by
  have hsplit : specSplice l first 0 l = specSplice l first 0 (l.take i ++ l.drop i) := by
    rw [List.take_append_drop]
  have hlen : (l.take i).length = i := by
    rw [List.length_take]
    omega
  have hgetD : l.getD i default = l[i] := by
    simp [List.getD_eq_getElem?_getD, List.getElem?_eq_getElem h]
  have hdrop : l.drop i = l.getD i default :: l.drop (i + 1) := by
    rw [hgetD]
    exact List.drop_eq_getElem_cons h
  rw [specInstrumentBlock, hsplit, specSplice_append, hlen, hdrop, specSplice]
  rw [Nat.zero_add]
  rfl

/-- If the set-point predicate is everywhere false on the block, the splice
only ever inserts restore sequences. -/
theorem specSplice_eq_restoreOnly (l : List MachineInstr) (first : Bool)
    (h : ∀ j, specSetPoint l first j = false) :
    ∀ (xs : List MachineInstr) (i : Nat),
      specSplice l first i xs = spliceRestoreOnly l i xs := by
  intro xs
  induction xs with
  | nil => intro i; rfl
  | cons mi rest ih =>
    intro i
    rw [specSplice, spliceRestoreOnly, ih (i + 1), h i]
    simp

/-- If the restore-point predicate is everywhere false on the block, the
splice only ever inserts enable sequences. -/
theorem specSplice_eq_setOnly (l : List MachineInstr) (first : Bool)
    (h : ∀ j, specRestorePoint l j = false) :
    ∀ (xs : List MachineInstr) (i : Nat),
      specSplice l first i xs = spliceSetOnly l first i xs := by
  intro xs
  induction xs with
  | nil => intro i; rfl
  | cons mi rest ih =>
    intro i
    rw [specSplice, spliceSetOnly, ih (i + 1), h i]
    simp

/-- A block none of whose instructions is prologue-flagged has no
prologue-exit transition. -/
theorem transitionAt_eq_false_of_no_frameSetup (l : List MachineInstr)
    (h : l.all (fun mi => !mi.frameSetup) = true) (j : Nat) :
    transitionAt l j = false := by
  cases j with
  | zero => rfl
  | succ j' =>
    rw [transitionAt]
    cases hj1 : l[j']? with
    | none => rfl
    | some a =>
      cases hj2 : l[j' + 1]? with
      | none => rfl
      | some b =>
        have ha : a ∈ l := List.getElem?_mem hj1
        have := List.all_eq_true.mp h a ha
        simp only [Bool.not_eq_true'] at this
        simp [this]

theorem hasTransition_eq_false_of_no_frameSetup (l : List MachineInstr)
    (h : l.all (fun mi => !mi.frameSetup) = true) : hasTransition l = false := by
  rw [hasTransition]
  rw [List.any_eq_false]
  intro j _
  simp [transitionAt_eq_false_of_no_frameSetup l h j]

/-- A block none of whose instructions is epilogue-flagged has no restore
point. -/
theorem specRestorePoint_eq_false_of_no_frameDestroy (l : List MachineInstr)
    (h : l.all (fun mi => !mi.frameDestroy) = true) (j : Nat) :
    specRestorePoint l j = false := by
  have hnone : l.findIdx? (·.frameDestroy) = none := by
    rw [List.findIdx?_eq_none_iff]
    intro x hx
    have := List.all_eq_true.mp h x hx
    simpa using this
  rw [specRestorePoint, firstDestroyIdx, hnone]
  rfl

/-! ### Structural consequences: additivity and flag preservation -/

theorem sublist_specSplice (l : List MachineInstr) (first : Bool) :
    ∀ (xs : List MachineInstr) (i : Nat), xs.Sublist (specSplice l first i xs) := by
  intro xs
  induction xs with
  | nil => intro i; exact List.nil_sublist _
  | cons mi rest ih =>
    intro i
    rw [specSplice]
    exact (List.Sublist.cons₂ mi (ih (i + 1))).trans (List.sublist_append_right _ _)

theorem filter_isMarker_ditSetSeq (dl : Nat) : (ditSetSeq dl).filter isMarker = [] := rfl

theorem filter_isMarker_ditUnsetSeq (dl : Nat) : (ditUnsetSeq dl).filter isMarker = [] := rfl

/-- Filtering with any predicate that rejects every inserted instruction sees
through the instrumentation. -/
theorem filter_specSplice_of_rejects (p : MachineInstr → Bool)
    (hset : ∀ dl : Nat, (ditSetSeq dl).filter p = [])
    (hunset : ∀ dl : Nat, (ditUnsetSeq dl).filter p = [])
    (l : List MachineInstr) (first : Bool) :
    ∀ (xs : List MachineInstr) (i : Nat),
      (specSplice l first i xs).filter p = xs.filter p := by
  intro xs
  induction xs with
  | nil => intro i; rfl
  | cons mi rest ih =>
    intro i
    rw [specSplice]
    rw [List.filter_append, List.filter_append, List.filter_cons, List.filter_cons]
    have h1 : ((if specSetPoint l first i then ditSetSeq mi.debugLoc else []) : List MachineInstr).filter p = [] := by
      by_cases hc : specSetPoint l first i = true
      · rw [if_pos hc]; exact hset mi.debugLoc
      · rw [if_neg hc]; rfl
    have h2 : ((if specRestorePoint l i then ditUnsetSeq mi.debugLoc else []) : List MachineInstr).filter p = [] := by
      by_cases hc : specRestorePoint l i = true
      · rw [if_pos hc]; exact hunset mi.debugLoc
      · rw [if_neg hc]; rfl
    rw [h1, h2, ih (i + 1)]
    simp

theorem filter_isMarker_specSplice (l : List MachineInstr) (first : Bool)
    (xs : List MachineInstr) (i : Nat) :
    (specSplice l first i xs).filter isMarker = xs.filter isMarker :=
  filter_specSplice_of_rejects isMarker (fun _ => rfl) (fun _ => rfl) l first xs i

theorem filter_frameDestroy_specSplice (l : List MachineInstr) (first : Bool)
    (xs : List MachineInstr) (i : Nat) :
    (specSplice l first i xs).filter (·.frameDestroy) = xs.filter (·.frameDestroy) :=
  filter_specSplice_of_rejects (·.frameDestroy) (fun _ => rfl) (fun _ => rfl) l first xs i

theorem find?_eq_head?_filter (p : MachineInstr → Bool) (l : List MachineInstr) :
    l.find? p = (l.filter p).head? := by
  induction l with
  | nil => rfl
  | cons mi rest ih =>
    by_cases hc : p mi = true
    · rw [List.find?_cons_of_pos rest hc, List.filter_cons, if_pos hc]
      rfl
    · rw [List.find?_cons_of_neg rest (by simp [Bool.not_eq_true] at hc; simp [hc]),
        List.filter_cons, if_neg hc, ih]

/-! ### The claims -/

/-- C1: in a protected function, at every transition from a prologue
(FrameSetup) run to a non-prologue instruction, exactly one 4-instruction
enable sequence (read-mode, set-mode, data-barrier, instruction-barrier, in
that order) is spliced in immediately before that first non-prologue
instruction: the rewritten block is exactly the original instructions with
the enable sequence sitting directly in front of the transition instruction
(followed only by the restore sequence when that same instruction is also the
block's first epilogue instruction, since set-target insertions are performed
before unset-target insertions at the same point). -/
theorem enable_seq_at_each_prologue_exit
    (MF MF' : MachineFunction) (ch : Bool) (tr : List MachineInstr) (b i : Nat)
    (hp : MF.ditProtected = true)
    (hrun : runOnMachineFunction MF = some (MF', ch, tr))
    (ht : transitionAt (MF.blocks.getD b []) i = true) :
    MF'.blocks.getD b [] =
      specPrefix (MF.blocks.getD b []) (b == 0) i ++
        (ditSetSeq ((MF.blocks.getD b []).getD i default).debugLoc ++
          (if specRestorePoint (MF.blocks.getD b []) i then
            ditUnsetSeq ((MF.blocks.getD b []).getD i default).debugLoc else []) ++
          ((MF.blocks.getD b []).getD i default) ::
            specSuffix (MF.blocks.getD b []) (b == 0) i) := by
  obtain ⟨_, _, hget, _⟩ := runOnMachineFunction_protected_spec MF MF' ch tr hp hrun
  have hlt : i < (MF.blocks.getD b []).length := transitionAt_lt ht
  have hsp : specSetPoint (MF.blocks.getD b []) (b == 0) i = true := by
    rw [specSetPoint, ht]
    simp
  rw [hget b, specInstrumentBlock_decomp _ _ i hlt, if_pos hsp]

/-- C2: in a protected function, every block containing an epilogue
(FrameDestroy) instruction receives exactly one 1-instruction restore
sequence, spliced in immediately before the FIRST such instruction (after the
enable sequence when that same position is also a set target), and no restore
sequence is inserted before any later epilogue-flagged instruction of the
block. -/
theorem restore_seq_at_first_epilogue_only
    (MF MF' : MachineFunction) (ch : Bool) (tr : List MachineInstr) (b i : Nat)
    (hp : MF.ditProtected = true)
    (hrun : runOnMachineFunction MF = some (MF', ch, tr))
    (hd : firstDestroyIdx (MF.blocks.getD b []) = some i) :
    (MF'.blocks.getD b [] =
      specPrefix (MF.blocks.getD b []) (b == 0) i ++
        ((if specSetPoint (MF.blocks.getD b []) (b == 0) i then
            ditSetSeq ((MF.blocks.getD b []).getD i default).debugLoc else []) ++
          ditUnsetSeq ((MF.blocks.getD b []).getD i default).debugLoc ++
          ((MF.blocks.getD b []).getD i default) ::
            specSuffix (MF.blocks.getD b []) (b == 0) i)) ∧
    (∀ j : Nat, ((MF.blocks.getD b []).getD j default).frameDestroy = true → j ≠ i →
      MF'.blocks.getD b [] =
        specPrefix (MF.blocks.getD b []) (b == 0) j ++
          ((if specSetPoint (MF.blocks.getD b []) (b == 0) j then
              ditSetSeq ((MF.blocks.getD b []).getD j default).debugLoc else []) ++
            ((MF.blocks.getD b []).getD j default) ::
              specSuffix (MF.blocks.getD b []) (b == 0) j)) := by
  obtain ⟨_, _, hget, _⟩ := runOnMachineFunction_protected_spec MF MF' ch tr hp hrun
  rw [firstDestroyIdx] at hd
  obtain ⟨hlt, _, _⟩ := List.findIdx?_eq_some_iff_getElem.mp hd
  constructor
  · have hrp : specRestorePoint (MF.blocks.getD b []) i = true := by
      rw [specRestorePoint, firstDestroyIdx, hd]
      simp
    rw [hget b, specInstrumentBlock_decomp _ _ i hlt, if_pos hrp]
  · intro j hj hne
    have hjlt : j < (MF.blocks.getD b []).length := by
      by_contra hge
      rw [List.getD_eq_getElem?_getD, List.getElem?_eq_none (by omega)] at hj
      simp at hj
    have hrpj : ¬specRestorePoint (MF.blocks.getD b []) j = true := by
      rw [specRestorePoint, firstDestroyIdx, hd]
      simp
      omega
    rw [hget b, specInstrumentBlock_decomp _ _ j hjlt, if_neg hrpj, List.append_nil]

/-- C3: in a protected function whose entry block has no prologue-flagged
instruction at all (so the scanner finds no enable point there), the enable
sequence is forced in immediately before the entry block's original first
instruction; and no such forced insertion happens in a non-entry block: a
non-entry block without a prologue-exit transition receives only restore
sequences. -/
theorem forced_enable_in_entry_only
    (MF MF' : MachineFunction) (ch : Bool) (tr : List MachineInstr)
    (l0 : List MachineInstr)
    (hp : MF.ditProtected = true)
    (hrun : runOnMachineFunction MF = some (MF', ch, tr))
    (hhead : MF.blocks.head? = some l0)
    (hnofs : l0.all (fun mi => !mi.frameSetup) = true) :
    (MF'.blocks.getD 0 [] =
      ditSetSeq (l0.getD 0 default).debugLoc ++
        (if specRestorePoint l0 0 then ditUnsetSeq (l0.getD 0 default).debugLoc else []) ++
        (l0.getD 0 default) :: specSuffix l0 true 0) ∧
    (∀ b : Nat, 0 < b → hasTransition (MF.blocks.getD b []) = false →
      MF'.blocks.getD b [] =
        spliceRestoreOnly (MF.blocks.getD b []) 0 (MF.blocks.getD b [])) := by
  obtain ⟨_, _, hget, _⟩ := runOnMachineFunction_protected_spec MF MF' ch tr hp hrun
  have hl0get : MF.blocks.getD 0 [] = l0 := by
    cases hbs : MF.blocks with
    | nil => rw [hbs] at hhead; simp at hhead
    | cons a rest =>
      rw [hbs] at hhead
      simp only [List.head?_cons, Option.some.injEq] at hhead
      simp [hhead]
  have hne : l0 ≠ [] := by
    intro hl0
    have hnone : runOnMachineFunction MF = none :=
      (runOnMachineFunction_eq_none_iff MF).mpr ⟨hp, by rw [hhead, hl0]⟩
    rw [hnone] at hrun
    exact Option.noConfusion hrun
  have hpos : 0 < l0.length := List.length_pos.mpr hne
  have hnt : hasTransition l0 = false := hasTransition_eq_false_of_no_frameSetup l0 hnofs
  constructor
  · have hsp : specSetPoint l0 true 0 = true := by
      rw [specSetPoint_forced l0 hnt 0]
      rfl
    have h0 := hget 0
    rw [hl0get] at h0
    have h0' : MF'.blocks.getD 0 [] = specInstrumentBlock l0 true := h0
    rw [h0', specInstrumentBlock_decomp l0 true 0 hpos, if_pos hsp]
    have hpre : specPrefix l0 true 0 = [] := rfl
    rw [hpre, List.nil_append]
  · intro b hb hnt2
    have hbf : (b == 0) = false := by
      cases b with
      | zero => omega
      | succ b' => rfl
    have hb' := hget b
    rw [hbf] at hb'
    rw [hb', specInstrumentBlock]
    apply specSplice_eq_restoreOnly
    intro j
    rw [specSetPoint_not_forced (MF.blocks.getD b []) false (fun hff => by simp at hff) j]
    exact hasTransition_false_all hnt2 j

/-- C4: evaluating the pass on `exBug` shows the divergence: the enable
sequence is forced in (the instruction stream grows by four instructions),
yet the pass reports `changed = false`. -/
theorem changed_flag_missed_on_forced_insert :
    runOnMachineFunction exBug =
      some (⟨true, [ditSetSeq 7 ++ [⟨.other 40, false, false, 7⟩]]⟩, false,
        ⟨.other 40, false, false, 7⟩ :: (ditSetSeq 7 ++ [⟨.other 40, false, false, 7⟩])) ∧
    (ditSetSeq 7 ++ [⟨.other 40, false, false, 7⟩] : List MachineInstr) ≠
      [⟨.other 40, false, false, 7⟩] := by
  constructor
  · rfl
  · decide

/-- C5: a function without the DIT-protected attribute is returned untouched:
result "no change", identical instruction stream, and no trace output. -/
theorem unprotected_untouched (MF : MachineFunction) (h : MF.ditProtected = false) :
    runOnMachineFunction MF = some (MF, false, []) :=
  runOnMachineFunction_unprotected MF h

theorem unprotected_untouched_witness :
    exD.ditProtected = false ∧ runOnMachineFunction exD = some (exD, false, []) :=
  ⟨rfl, unprotected_untouched exD rfl⟩

/-- C6 is false as stated: on `cexUnmatched` — a single-block function, so the
block itself is the only control-flow path, and it leaves the function — the
pass inserts one enable sequence and zero restore sequences, so the unique
exit path runs the enable with no matching restore. -/
theorem enable_without_restore_on_exit_path :
    runOnMachineFunction cexUnmatched =
      some (⟨true, [ditSetSeq 0 ++ [⟨.other 60, false, false, 0⟩]]⟩, false,
        ⟨.other 60, false, false, 0⟩ :: (ditSetSeq 0 ++ [⟨.other 60, false, false, 0⟩])) ∧
    countEnableStarts ⟨true, [ditSetSeq 0 ++ [⟨.other 60, false, false, 0⟩]]⟩ = 1 ∧
    countRestoreInstrs ⟨true, [ditSetSeq 0 ++ [⟨.other 60, false, false, 0⟩]]⟩ = 0 := by
  refine ⟨rfl, rfl, rfl⟩

/-- C6 amended: the pass pairs enables with restores only per block and only
where an epilogue-flagged instruction exists — a block with no epilogue-flagged
instruction receives enable sequences (where scanned or forced) but no restore
sequence at all, so a path leaving the function through such a block runs no
restore. -/
theorem no_restore_in_destroy_free_blocks
    (MF MF' : MachineFunction) (ch : Bool) (tr : List MachineInstr) (b : Nat)
    (hp : MF.ditProtected = true)
    (hrun : runOnMachineFunction MF = some (MF', ch, tr))
    (hnod : (MF.blocks.getD b []).all (fun mi => !mi.frameDestroy) = true) :
    MF'.blocks.getD b [] =
      spliceSetOnly (MF.blocks.getD b []) (b == 0) 0 (MF.blocks.getD b []) := by
  obtain ⟨_, _, hget, _⟩ := runOnMachineFunction_protected_spec MF MF' ch tr hp hrun
  rw [hget b, specInstrumentBlock]
  apply specSplice_eq_setOnly
  intro j
  exact specRestorePoint_eq_false_of_no_frameDestroy (MF.blocks.getD b []) hnod j

/-- C7: for every function (protected or not) on which the pass completes,
nothing is deleted or reordered: the block structure is preserved, each
original block is a subsequence of the corresponding rewritten block (same
instructions, same relative order), and no block shrinks. -/
theorem pass_is_strictly_additive
    (MF MF' : MachineFunction) (ch : Bool) (tr : List MachineInstr)
    (hrun : runOnMachineFunction MF = some (MF', ch, tr)) :
    MF'.blocks.length = MF.blocks.length ∧
    ∀ b : Nat, (MF.blocks.getD b []).Sublist (MF'.blocks.getD b []) ∧
      (MF.blocks.getD b []).length ≤ (MF'.blocks.getD b []).length := by
  cases hd : MF.ditProtected with
  | false =>
    rw [runOnMachineFunction_unprotected MF hd] at hrun
    simp only [Option.some.injEq, Prod.mk.injEq] at hrun
    obtain ⟨hMF, _, _⟩ := hrun
    rw [← hMF]
    exact ⟨rfl, fun b => ⟨List.Sublist.refl _, Nat.le_refl _⟩⟩
  | true =>
    obtain ⟨_, hlen, hget, _⟩ := runOnMachineFunction_protected_spec MF MF' ch tr hd hrun
    refine ⟨hlen, fun b => ?_⟩
    rw [hget b, specInstrumentBlock]
    exact ⟨sublist_specSplice _ _ _ 0, (sublist_specSplice _ _ _ 0).length_le⟩

/-- C8 is false as stated: on the protected function `cexTrace` the pass
emits a non-empty trace to the error stream (each insertion-target
instruction, then a dump of the whole rewritten instruction stream), so it
does produce observable output besides the mutated function and the changed
flag. -/
theorem trace_emitted_for_protected_function :
    runOnMachineFunction cexTrace =
      some (⟨true, [ditSetSeq 5 ++ ditUnsetSeq 5 ++ [⟨.other 80, false, true, 5⟩]]⟩, true,
        [⟨.other 80, false, true, 5⟩, ⟨.other 80, false, true, 5⟩] ++
          (ditSetSeq 5 ++ ditUnsetSeq 5 ++ [⟨.other 80, false, true, 5⟩])) ∧
    ([⟨.other 80, false, true, 5⟩, ⟨.other 80, false, true, 5⟩] ++
        (ditSetSeq 5 ++ ditUnsetSeq 5 ++ [⟨.other 80, false, true, 5⟩]) :
      List MachineInstr) ≠ [] := by
  constructor
  · rfl
  · decide

/-- C8 amended: the pass emits nothing for unprotected functions, but for
every protected function it unconditionally writes to the error stream: the
trace is exactly the per-block insertion-target dump followed by the complete
post-pass instruction stream. -/
theorem trace_exactly_targets_then_dump
    (MF MF' : MachineFunction) (ch : Bool) (tr : List MachineInstr)
    (hrun : runOnMachineFunction MF = some (MF', ch, tr)) :
    (MF.ditProtected = false → tr = []) ∧
    (MF.ditProtected = true → tr = specBlocksDump MF.blocks true ++ MF'.blocks.flatten) := by
  constructor
  · intro h
    rw [runOnMachineFunction_unprotected MF h] at hrun
    simp only [Option.some.injEq, Prod.mk.injEq] at hrun
    exact hrun.2.2.symm
  · intro h
    exact (runOnMachineFunction_protected_spec MF MF' ch tr h hrun).2.2.2

/-- C9: every instruction the pass inserts carries neither the FrameSetup nor
the FrameDestroy flag, so the marker instructions of a rewritten block are
exactly those of the original block; in particular a rescan looking for the
first epilogue-flagged instruction finds the same instruction as before
instrumentation. -/
theorem inserted_instructions_flagless_markers_stable
    (MF MF' : MachineFunction) (ch : Bool) (tr : List MachineInstr)
    (hrun : runOnMachineFunction MF = some (MF', ch, tr)) :
    (∀ dl : Nat,
      ((ditSetSeq dl ++ ditUnsetSeq dl).all fun mi => !mi.frameSetup && !mi.frameDestroy) = true) ∧
    (∀ b : Nat, (MF'.blocks.getD b []).filter isMarker = (MF.blocks.getD b []).filter isMarker) ∧
    (∀ b : Nat, (MF'.blocks.getD b []).find? (·.frameDestroy) =
      (MF.blocks.getD b []).find? (·.frameDestroy)) := by
  refine ⟨fun dl => rfl, ?_⟩
  cases hd : MF.ditProtected with
  | false =>
    rw [runOnMachineFunction_unprotected MF hd] at hrun
    simp only [Option.some.injEq, Prod.mk.injEq] at hrun
    obtain ⟨hMF, _, _⟩ := hrun
    rw [← hMF]
    exact ⟨fun b => rfl, fun b => rfl⟩
  | true =>
    obtain ⟨_, _, hget, _⟩ := runOnMachineFunction_protected_spec MF MF' ch tr hd hrun
    constructor
    · intro b
      rw [hget b, specInstrumentBlock, filter_isMarker_specSplice]
    · intro b
      rw [hget b, specInstrumentBlock, find?_eq_head?_filter, find?_eq_head?_filter,
        filter_frameDestroy_specSplice]

/-- C10: the forced fallback insertion dereferences the entry block's begin
iterator, which refers to a real instruction exactly when the entry block is
non-empty; the pass's run is modelled as `none` (undefined behaviour) exactly
when the function is protected and its entry block is empty — a non-empty
entry block is the unstated safety precondition. -/
theorem forced_insert_requires_nonempty_entry (MF : MachineFunction) :
    runOnMachineFunction MF = none ↔
      (MF.ditProtected = true ∧ MF.blocks.head? = some []) :=
  runOnMachineFunction_eq_none_iff MF

/-! ### Witnesses: the claim theorems applied at concrete inputs -/

theorem enable_seq_witness :
    exA.ditProtected = true ∧
    runOnMachineFunction exA = some (exAOut, true, exATr) ∧
    transitionAt (exA.blocks.getD 0 []) 2 = true ∧
    exAOut.blocks.getD 0 [] =
      specPrefix (exA.blocks.getD 0 []) (0 == 0) 2 ++
        (ditSetSeq ((exA.blocks.getD 0 []).getD 2 default).debugLoc ++
          (if specRestorePoint (exA.blocks.getD 0 []) 2 then
            ditUnsetSeq ((exA.blocks.getD 0 []).getD 2 default).debugLoc else []) ++
          ((exA.blocks.getD 0 []).getD 2 default) ::
            specSuffix (exA.blocks.getD 0 []) (0 == 0) 2) :=
  ⟨rfl, by decide, by decide,
    enable_seq_at_each_prologue_exit exA exAOut true exATr 0 2 rfl (by decide) (by decide)⟩

theorem restore_seq_witness :
    exB.ditProtected = true ∧
    runOnMachineFunction exB = some (exBOut, true, exBTr) ∧
    firstDestroyIdx (exB.blocks.getD 0 []) = some 1 ∧
    (exBOut.blocks.getD 0 [] =
      specPrefix (exB.blocks.getD 0 []) (0 == 0) 1 ++
        ((if specSetPoint (exB.blocks.getD 0 []) (0 == 0) 1 then
            ditSetSeq ((exB.blocks.getD 0 []).getD 1 default).debugLoc else []) ++
          ditUnsetSeq ((exB.blocks.getD 0 []).getD 1 default).debugLoc ++
          ((exB.blocks.getD 0 []).getD 1 default) ::
            specSuffix (exB.blocks.getD 0 []) (0 == 0) 1)) ∧
    ((exB.blocks.getD 0 []).getD 2 default).frameDestroy = true ∧
    (exBOut.blocks.getD 0 [] =
      specPrefix (exB.blocks.getD 0 []) (0 == 0) 2 ++
        ((if specSetPoint (exB.blocks.getD 0 []) (0 == 0) 2 then
            ditSetSeq ((exB.blocks.getD 0 []).getD 2 default).debugLoc else []) ++
          ((exB.blocks.getD 0 []).getD 2 default) ::
            specSuffix (exB.blocks.getD 0 []) (0 == 0) 2)) :=
  ⟨rfl, by decide, by decide,
    (restore_seq_at_first_epilogue_only exB exBOut true exBTr 0 1 rfl (by decide) (by decide)).1,
    by decide,
    (restore_seq_at_first_epilogue_only exB exBOut true exBTr 0 1 rfl (by decide)
      (by decide)).2 2 (by decide) (by decide)⟩

theorem forced_enable_witness :
    exC.ditProtected = true ∧
    runOnMachineFunction exC = some (exCOut, true, exCTr) ∧
    exC.blocks.head? = some [b1] ∧
    ([b1].all (fun mi => !mi.frameSetup)) = true ∧
    (exCOut.blocks.getD 0 [] =
      ditSetSeq ([b1].getD 0 default).debugLoc ++
        (if specRestorePoint [b1] 0 then ditUnsetSeq ([b1].getD 0 default).debugLoc else []) ++
        ([b1].getD 0 default) :: specSuffix [b1] true 0) ∧
    (0 : Nat) < 1 ∧
    hasTransition (exC.blocks.getD 1 []) = false ∧
    (exCOut.blocks.getD 1 [] =
      spliceRestoreOnly (exC.blocks.getD 1 []) 0 (exC.blocks.getD 1 [])) :=
  ⟨rfl, by decide, by decide, by decide,
    (forced_enable_in_entry_only exC exCOut true exCTr [b1] rfl (by decide) (by decide)
      (by decide)).1,
    by decide, by decide,
    (forced_enable_in_entry_only exC exCOut true exCTr [b1] rfl (by decide) (by decide)
      (by decide)).2 1 (by decide) (by decide)⟩

theorem no_restore_witness :
    exA.ditProtected = true ∧
    runOnMachineFunction exA = some (exAOut, true, exATr) ∧
    ((exA.blocks.getD 0 []).all (fun mi => !mi.frameDestroy)) = true ∧
    exAOut.blocks.getD 0 [] =
      spliceSetOnly (exA.blocks.getD 0 []) (0 == 0) 0 (exA.blocks.getD 0 []) :=
  ⟨rfl, by decide, by decide,
    no_restore_in_destroy_free_blocks exA exAOut true exATr 0 rfl (by decide) (by decide)⟩

theorem additive_witness :
    runOnMachineFunction exB = some (exBOut, true, exBTr) ∧
    exBOut.blocks.length = exB.blocks.length ∧
    (exB.blocks.getD 0 []).Sublist (exBOut.blocks.getD 0 []) ∧
    (exB.blocks.getD 0 []).length ≤ (exBOut.blocks.getD 0 []).length :=
  ⟨by decide,
    (pass_is_strictly_additive exB exBOut true exBTr (by decide)).1,
    ((pass_is_strictly_additive exB exBOut true exBTr (by decide)).2 0).1,
    ((pass_is_strictly_additive exB exBOut true exBTr (by decide)).2 0).2⟩

theorem trace_witness :
    runOnMachineFunction exB = some (exBOut, true, exBTr) ∧
    exB.ditProtected = true ∧
    exBTr = specBlocksDump exB.blocks true ++ exBOut.blocks.flatten :=
  ⟨by decide, rfl,
    (trace_exactly_targets_then_dump exB exBOut true exBTr (by decide)).2 rfl⟩

theorem flagless_witness :
    runOnMachineFunction exB = some (exBOut, true, exBTr) ∧
    (((ditSetSeq 9 ++ ditUnsetSeq 9).all fun mi => !mi.frameSetup && !mi.frameDestroy) = true) ∧
    (exBOut.blocks.getD 0 []).filter isMarker = (exB.blocks.getD 0 []).filter isMarker ∧
    (exBOut.blocks.getD 0 []).find? (·.frameDestroy) =
      (exB.blocks.getD 0 []).find? (·.frameDestroy) :=
  ⟨by decide,
    (inserted_instructions_flagless_markers_stable exB exBOut true exBTr (by decide)).1 9,
    (inserted_instructions_flagless_markers_stable exB exBOut true exBTr (by decide)).2.1 0,
    (inserted_instructions_flagless_markers_stable exB exBOut true exBTr (by decide)).2.2 0⟩

end DITPass
